import Mathlib

/-!
Verification of the TiDB vector-store adapter (mem0):
src/mem0/vector_stores/tidb.py and src/mem0/configs/vector_stores/tidb.py.

The adapter stores rows (id, vector JSON, payload JSON) in one table and
issues parameterized SQL.  We embed the table as a list of rows, each SQL
operation as a pure function on that list, and the database engine's
vector-distance function (VEC_COSINE_DISTANCE, an external collaborator)
as an abstract parameter.  JSON values are modelled at the level of JSON
values, in the shapes the adapter reads and writes per the data model:
scalars, arrays of numbers (vectors), and flat objects mapping string keys
to scalar values (payloads).  json.dumps/json.loads, which are inverse on
texts, are modelled as the identity embedding into this value type; numbers
are rationals.  uuid.uuid4, an external source of fresh identifiers, is
modelled as an abstract generator passed to insert.
-/

namespace Mem0

/-- Scalar JSON values: null, booleans, numbers, strings. -/
inductive Scalar where
  | null
  | boolean (b : Bool)
  | num (q : ℚ)
  | str (s : String)
deriving DecidableEq, Repr

/-- JSON values in the shapes the adapter stores: a scalar, an array of
scalars (vector columns hold arrays of numbers), or a flat object mapping
string keys to scalar values (payload columns hold metadata mappings). -/
inductive Json where
  | scalar (s : Scalar)
  | arr (elems : List Scalar)
  | obj (fields : List (String × Scalar))
deriving DecidableEq, Repr

/-- A payload: the in-memory metadata mapping (a Python dict of string keys
to scalar values), modelled as an association list where the first
occurrence of a key wins. -/
abbrev Payload := List (String × Scalar)

/-- Association-list lookup: the value of the first pair whose key matches,
modelling dict access / JSON field extraction. -/
def assocGet {β : Type} : List (String × β) → String → Option β
  | [], _ => none
  | (k, v) :: rest, key => if k = key then some v else assocGet rest key

/-- Encoding layer, vector side: json.dumps of a list of numbers produces a
JSON array of numbers (src insert line 152, search line 181). -/
def encodeVector (v : List ℚ) : Json :=
  Json.arr (v.map Scalar.num)

/-- Decode a list of JSON scalars as numbers; fails (EncodingError) if any
element is not a number. -/
def decodeNums : List Scalar → Option (List ℚ)
  | [] => some []
  | Scalar.num q :: rest => (decodeNums rest).map (fun l => q :: l)
  | _ => none

/-- Encoding layer, vector side inverse: json.loads of a stored vector
column; fails if the value is not an array of numbers. -/
def decodeVector : Json → Option (List ℚ)
  | Json.arr elems => decodeNums elems
  | _ => none

/-- Encoding layer, payload side: json.dumps of a metadata dict produces a
JSON object (src insert line 153, update line 253). -/
def encodePayload (p : Payload) : Json :=
  Json.obj p

/-- Result-mapper payload decoding, modelling the source expression
json.loads(row[2]) if row[2] else {} (src lines 214, 286, 376): a NULL or
absent column decodes to the empty mapping; an object decodes to its
fields; any other JSON value is not a dict (decoding failure, unreachable
through the adapter's own writes). -/
def decodePayload : Option Json → Option Payload
  | none => some []
  | some (Json.obj fields) => some fields
  | some _ => none

/-- One stored row of the collection's table: id VARCHAR(36) PRIMARY KEY,
vector JSON NOT NULL, payload JSON (nullable)  (src create_col lines
115-122). -/
structure Row where
  id : String
  vector : Json
  payload : Option Json
deriving DecidableEq, Repr

/-- The state of one collection's table: its rows in storage order. -/
abbrev TableState := List Row

/-- The uniform output record (src OutputData, lines 18-21): all three
fields are Optional in the source. -/
structure OutputData where
  id : Option String
  score : Option ℚ
  payload : Option Payload
deriving DecidableEq, Repr

/-- Filters: a mapping of payload key to exact-match value (a Python dict
passed to search/list). -/
abbrev Filters := List (String × Scalar)

/-- The WHERE clause built from filters (src search lines 193-201, list
lines 356-364): for each entry, JSON_EXTRACT(payload, key) = value; the
conjuncts are ANDed.  Extracting from a NULL payload column, a non-object
payload, or a missing key yields SQL NULL, and NULL = v is not TRUE, so the
row is excluded without error.  A falsy (empty) filters dict adds no WHERE
clause, which coincides with the empty conjunction being true. -/
def matchesFilters (filters : Option Filters) (payloadCol : Option Json) : Bool :=
  match filters with
  | none => true
  | some fs => fs.all fun kv =>
      match payloadCol with
      | some (Json.obj fields) => assocGet fields kv.1 = some kv.2
      | _ => false

namespace TiDB

/-- insert (src lines 127-163): no-op on an empty vectors list; ids default
to freshly generated UUID strings and payloads to empty dicts when omitted;
each row stores the JSON-encoded vector and payload, appended by the batch
INSERT.  The uuid.uuid4 supply is modelled by the generator fresh; the
source indexes ids[i]/payloads[i] under the precondition that supplied
lists have the same length as vectors, which the zip below realizes. -/
def insert (st : TableState) (vectors : List (List ℚ))
    (payloads : Option (List Payload)) (ids : Option (List String))
    (fresh : Nat → String) : TableState :=
  if vectors = [] then st
  else
    let n := vectors.length
    let theIds := ids.getD ((List.range n).map fresh)
    let thePayloads := payloads.getD (List.replicate n [])
    let data := (theIds.zip (vectors.zip thePayloads)).map fun t =>
      Row.mk t.1 (encodeVector t.2.1) (some (encodePayload t.2.2))
    st ++ data

/-- Comparison on distance-scored rows, modelling ORDER BY distance. -/
def scoreLE (x y : Row × ℚ) : Prop :=
  x.2 ≤ y.2

instance : DecidableRel scoreLE := fun x y =>
  inferInstanceAs (Decidable (x.2 ≤ y.2))

instance : IsTotal (Row × ℚ) scoreLE :=
  ⟨fun a b => le_total a.2 b.2⟩

instance : IsTrans (Row × ℚ) scoreLE :=
  ⟨fun _ _ _ h₁ h₂ => le_trans h₁ h₂⟩

/-- The scored row set of the search SELECT before ORDER BY/LIMIT (src
lines 184-201): every row passing the WHERE clause, paired with
VEC_COSINE_DISTANCE(JSON_EXTRACT(vector, dollar), JSON_EXTRACT(param,
dollar)) computed by the engine d between the stored vector column and the
JSON-encoded query vector. -/
def searchScored (d : Json → Json → ℚ) (st : TableState) (qv : List ℚ)
    (filters : Option Filters) : List (Row × ℚ) :=
  (st.filter fun r => matchesFilters filters r.payload).map
    fun r => (r, d r.vector (encodeVector qv))

/-- Result mapper of search (src lines 210-217): id, score = the computed
distance, payload decoded with the empty-mapping default. -/
def rowToSearchOutput (x : Row × ℚ) : OutputData :=
  OutputData.mk (some x.1.id) (some x.2) (decodePayload x.1.payload)

/-- search (src lines 165-217): the query string parameter is accepted but
unused; rows passing the filters are ordered ascending by the computed
distance, truncated by LIMIT, and mapped to output records. -/
def search (d : Json → Json → ℚ) (st : TableState) (query : String)
    (vectors : List ℚ) (limit : Nat) (filters : Option Filters) :
    List OutputData :=
  (((searchScored d st vectors filters).insertionSort scoreLE).take limit).map
    rowToSearchOutput

/-- delete (src lines 219-231): DELETE FROM table WHERE id = vector_id. -/
def delete (st : TableState) (vector_id : String) : TableState :=
  st.filter fun r => r.id ≠ vector_id

/-- update (src lines 233-262): with neither field supplied the call
returns before issuing SQL; otherwise UPDATE SET rewrites exactly the
supplied columns on the rows whose id matches. -/
def update (st : TableState) (vector_id : String) (vector : Option (List ℚ))
    (payload : Option Payload) : TableState :=
  match vector, payload with
  | none, none => st
  | _, _ =>
      st.map fun r =>
        if r.id = vector_id then
          { r with
            vector := (vector.map encodeVector).getD r.vector,
            payload := (payload.map (fun p => some (encodePayload p))).getD r.payload }
        else r

/-- get (src lines 264-287): SELECT ... WHERE id = vector_id, fetchone;
None when no row matches, otherwise an output record with score absent and
the payload decoded with the empty-mapping default. -/
def get (st : TableState) (vector_id : String) : Option OutputData :=
  (st.find? fun r => r.id = vector_id).map fun r =>
    OutputData.mk (some r.id) none (decodePayload r.payload)

/-- Result mapper shared by get and list rows: score is absent. -/
def rowToListOutput (r : Row) : OutputData :=
  OutputData.mk (some r.id) none (decodePayload r.payload)

/-- list (src lines 340-379): SELECT with the same WHERE clause as search
and a LIMIT, no ORDER BY; the comprehension is wrapped in one extra pair of
brackets, so the whole result set is returned as a single-element outer
list. -/
def list (st : TableState) (filters : Option Filters) (limit : Nat) :
    List (List OutputData) :=
  [((st.filter fun r => matchesFilters filters r.payload).take limit).map
    rowToListOutput]

end TiDB

/-- Field names of TiDBConfig (src configs/vector_stores/tidb.py lines
7-19), the allowed construction parameters. -/
def allowed_fields : List String :=
  ["host", "port", "user", "password", "database", "collection_name",
   "embedding_model_dims", "ssl_disabled", "ssl_ca", "ssl_cert", "ssl_key",
   "ssl_verify_cert", "ssl_verify_identity"]

/-- The required construction parameters (src configs line 23). -/
def required_fields : List String :=
  ["host", "user", "password", "database"]

/-- A raw configuration input: the mapping of field names to values handed
to the validators; the four required fields are strings, so values are
modelled as strings (Python truthiness of a string: nonempty). -/
abbrev ConfigInput := List (String × String)

/-- Truthiness test of values.get(field) (src configs line 24): a missing
key gives None (falsy) and an empty string is falsy. -/
def fieldTruthy (values : ConfigInput) (field : String) : Bool :=
  match assocGet values field with
  | some v => v ≠ ""
  | none => false

/-- The required fields reported missing by check_required_fields (src
configs lines 21-27). -/
def missingRequired (values : ConfigInput) : List String :=
  required_fields.filter fun f => ¬ fieldTruthy values f

/-- The unrecognized fields reported by validate_extra_fields (src configs
lines 29-39). -/
def extraFields (values : ConfigInput) : List String :=
  (values.map Prod.fst).filter fun k => k ∉ allowed_fields

/-- The model validators of TiDBConfig: both run before any field parsing,
on the raw input mapping, and raise on missing required fields or
unrecognized fields; validation is a pure function of the input, with no
connection involved. -/
def validateTiDBConfig (values : ConfigInput) : Except String ConfigInput :=
  if missingRequired values ≠ [] then
    Except.error ("Missing required fields: " ++
      String.intercalate (", ") (missingRequired values))
  else if extraFields values ≠ [] then
    Except.error ("Extra fields not allowed: " ++
      String.intercalate (", ") (extraFields values))
  else
    Except.ok values

end Mem0

namespace Mem0

/-! ### Helper lemmas and concrete data -/

/-- Decoding the number-encoding of a list of rationals recovers the list. -/
theorem decodeNums_map_num (v : List ℚ) :
    decodeNums (v.map Scalar.num) = some v := by
  induction v with
  | nil => rfl
  | cons q t ih => simp [decodeNums, ih]

/-- The claim-side filter predicate: the payload column holds a JSON object
that contains every filter key with exactly the filter's value. -/
def payloadMatches (fs : Filters) (payloadCol : Option Json) : Prop :=
  ∀ kv ∈ fs, ∃ fields, payloadCol = some (Json.obj fields) ∧
    assocGet fields kv.1 = some kv.2

/-- The WHERE clause built by the source coincides with the claim-side
filter predicate. -/
theorem matchesFilters_iff (fs : Filters) (c : Option Json) :
    matchesFilters (some fs) c = true ↔ payloadMatches fs c := by
  unfold matchesFilters payloadMatches
  rw [List.all_eq_true]
  constructor
  · intro h kv hkv
    have := h kv hkv
    match c with
    | none => simp at this
    | some (Json.scalar s) => simp at this
    | some (Json.arr l) => simp at this
    | some (Json.obj fields) =>
        exact ⟨fields, rfl, by simpa using this⟩
  · intro h kv hkv
    obtain ⟨fields, hc, hget⟩ := h kv hkv
    subst hc
    simpa using hget

/-- Mapping a conditional rewrite over rows none of which match the id is
the identity. -/
theorem map_if_id (st : TableState) (vid : String) (f : Row → Row)
    (h : ∀ r ∈ st, r.id ≠ vid) :
    (st.map fun r => if r.id = vid then f r else r) = st := by
  induction st with
  | nil => rfl
  | cons a t ih =>
      rw [List.map_cons, if_neg (h a (List.mem_cons_self a t)),
        ih fun r hr => h r (List.mem_cons_of_mem a hr)]

/-- Well-formed payload columns: NULL or a JSON object, the only shapes the
adapter's own writes produce. -/
def payloadColWF : Option Json → Bool
  | none => true
  | some (Json.obj _) => true
  | some _ => false

/-- A table state is reachable-shaped when every payload column is NULL or
a JSON object. -/
def WellFormedPayloads (st : TableState) : Prop :=
  ∀ r ∈ st, payloadColWF r.payload = true

instance (st : TableState) : Decidable (WellFormedPayloads st) :=
  inferInstanceAs (Decidable (∀ r ∈ st, payloadColWF r.payload = true))

/-- A well-formed payload column decodes to some mapping. -/
theorem decodePayload_isSome_of_wf {c : Option Json}
    (h : payloadColWF c = true) : ∃ pl, decodePayload c = some pl := by
  match c with
  | none => exact ⟨[], rfl⟩
  | some (Json.obj fields) => exact ⟨fields, rfl⟩
  | some (Json.scalar s) => simp [payloadColWF] at h
  | some (Json.arr l) => simp [payloadColWF] at h

/-- Concrete rows used by the witnesses. -/
def rowA : Row :=
  ⟨"a", encodeVector [1], some (encodePayload [("k", Scalar.str ("v"))])⟩

def rowB : Row :=
  ⟨"b", encodeVector [2], none⟩

def rowC : Row :=
  ⟨"c", encodeVector [3], some (encodePayload [("k", Scalar.str ("w"))])⟩

def stAB : TableState := [rowA, rowB]

def stABC : TableState := [rowA, rowB, rowC]

/-- A concrete injective identifier generator standing in for uuid4. -/
def freshEx (n : Nat) : String :=
  String.mk (List.replicate n ('a'))

theorem freshEx_injective : Function.Injective freshEx := by
  intro a b h
  have h3 := congrArg (fun s => s.data.length) h
  simpa [freshEx] using h3

/-! ### Claim theorems -/

/-- C6: decoding the encoded form gives back the original: for every
numeric vector V, decode_vector(encode_vector(V)) = V; for every metadata
mapping P, decode_payload(encode_payload(P)) = P; and an absent/NULL
payload decodes to the empty mapping rather than null. -/
theorem C6_encode_decode_roundtrip (v : List ℚ) (p : Payload) :
    decodeVector (encodeVector v) = some v ∧
    decodePayload (some (encodePayload p)) = some p ∧
    decodePayload none = some [] :=
  ⟨by simp [encodeVector, decodeVector, decodeNums_map_num], rfl, rfl⟩

/-- C10: the result of search is independent of its first query-string
argument: two calls differing only in the query string return identical
results, for every distance function, state, query vector, limit and
filters. -/
theorem C10_search_ignores_query (d : Json → Json → ℚ) (st : TableState)
    (q₁ q₂ : String) (qv : List ℚ) (limit : Nat) (filters : Option Filters) :
    TiDB.search d st q₁ qv limit filters = TiDB.search d st q₂ qv limit filters :=
  rfl

/-- C5: for an identifier not present in the collection, get returns
absent (not an error), and update and delete complete while leaving every
stored row unchanged. -/
theorem C5_unknown_id_semantics (st : TableState) (vid : String)
    (v : Option (List ℚ)) (p : Option Payload)
    (h : ∀ r ∈ st, r.id ≠ vid) :
    TiDB.get st vid = none ∧
    TiDB.update st vid v p = st ∧
    TiDB.delete st vid = st := by
  refine ⟨?_, ?_, ?_⟩
  · unfold TiDB.get
    rw [List.find?_eq_none.mpr fun r hr => by simpa using h r hr]
    rfl
  · unfold TiDB.update
    match v, p with
    | none, none => rfl
    | some v', none => exact map_if_id st vid _ h
    | none, some p' => exact map_if_id st vid _ h
    | some v', some p' => exact map_if_id st vid _ h
  · exact List.filter_eq_self.mpr fun r hr => by simpa using h r hr

/-- C5 witness: the three conclusions at a concrete one-row state and an
absent identifier. -/
theorem C5_unknown_id_semantics_witness :
    (∀ r ∈ stAB, r.id ≠ "zz") ∧
    (TiDB.get stAB ("zz") = none ∧
     TiDB.update stAB ("zz") (some [5]) none = stAB ∧
     TiDB.delete stAB ("zz") = stAB) :=
  ⟨by decide, C5_unknown_id_semantics stAB ("zz") (some [5]) none (by decide)⟩

end Mem0

namespace Mem0

/-- C3 counterexample: on a concrete two-row state with no filters and
limit 10, both rows match, yet list returns an outer sequence of length
one — the two output records are nested inside an extra grouping layer —
so list does not return one element per matching stored row. -/
theorem C3_list_not_flat_counterexample :
    stAB.length = 2 ∧
    (TiDB.list stAB none 10).length = 1 ∧
    (TiDB.list stAB none 10).length ≠ stAB.length ∧
    TiDB.list stAB none 10 =
      [[TiDB.rowToListOutput rowA, TiDB.rowToListOutput rowB]] :=
  ⟨rfl, rfl, by decide, rfl⟩

/-- C3 amended: list(filters, limit) returns its records nested inside one
extra layer of grouping: a singleton outer sequence whose single element is
the flat sequence of matching OutputRecords — one element per matching
stored row, truncated to at most limit elements. -/
theorem C3_list_singleton_nested (st : TableState) (filters : Option Filters)
    (limit : Nat) :
    ∃ inner : List OutputData,
      TiDB.list st filters limit = [inner] ∧
      inner.length =
        min limit (st.filter fun r => matchesFilters filters r.payload).length ∧
      inner.length ≤ limit ∧
      ∀ o ∈ inner, ∃ r ∈ st,
        matchesFilters filters r.payload = true ∧ o.id = some r.id := by
  refine ⟨_, rfl, ?_, ?_, ?_⟩
  · simp
  · simp
  · intro o ho
    rw [List.mem_map] at ho
    obtain ⟨r, hr, rfl⟩ := ho
    have hr2 := List.mem_filter.mp (List.mem_of_mem_take hr)
    exact ⟨r, hr2.1, hr2.2, rfl⟩

/-- C4: insert with both ids and payloads omitted appends exactly n rows
(n = number of vectors) whose identifiers are freshly generated and
pairwise distinct and whose payloads decode to the empty mapping, for any
injective identifier generator standing in for uuid4. -/
theorem C4_insert_generated_defaults (st : TableState)
    (vectors : List (List ℚ)) (fresh : Nat → String)
    (hf : Function.Injective fresh) (hv : vectors ≠ []) :
    ∃ newRows : List Row,
      TiDB.insert st vectors none none fresh = st ++ newRows ∧
      newRows.length = vectors.length ∧
      (newRows.map Row.id).Nodup ∧
      ∀ r ∈ newRows, decodePayload r.payload = some [] := by
  refine ⟨(((List.range vectors.length).map fresh).zip
      (vectors.zip (List.replicate vectors.length []))).map fun t =>
        Row.mk t.1 (encodeVector t.2.1) (some (encodePayload t.2.2)),
      ?_, ?_, ?_, ?_⟩
  · unfold TiDB.insert
    rw [if_neg hv]
    rfl
  · simp
  · rw [List.map_map]
    have hcomp : (Row.id ∘ fun t : String × (List ℚ × Payload) =>
        Row.mk t.1 (encodeVector t.2.1) (some (encodePayload t.2.2))) =
        Prod.fst := rfl
    rw [hcomp, List.map_fst_zip]
    · exact (List.nodup_range vectors.length).map hf
    · simp
  · intro r hr
    rw [List.mem_map] at hr
    obtain ⟨⟨i, v, p⟩, ht, rfl⟩ := hr
    have h2 := (List.of_mem_zip ht).2
    have h3 := (List.of_mem_zip h2).2
    have hp := List.eq_of_mem_replicate h3
    subst hp
    rfl

/-- C4 witness: inserting two vectors into the empty state with a concrete
injective generator and no ids/payloads. -/
theorem C4_insert_generated_defaults_witness :
    Function.Injective freshEx ∧ ([[(1 : ℚ)], [2]] ≠ ([] : List (List ℚ))) ∧
    ∃ newRows : List Row,
      TiDB.insert [] [[(1 : ℚ)], [2]] none none freshEx = [] ++ newRows ∧
      newRows.length = ([[(1 : ℚ)], [2]] : List (List ℚ)).length ∧
      (newRows.map Row.id).Nodup ∧
      ∀ r ∈ newRows, decodePayload r.payload = some [] :=
  ⟨freshEx_injective, by decide,
    C4_insert_generated_defaults [] [[(1 : ℚ)], [2]] freshEx
      freshEx_injective (by decide)⟩

/-- C7: every OutputRecord returned by search, list or get on a state whose
payload columns are NULL or JSON objects (the only shapes the adapter
writes) carries a non-null payload, and a NULL/absent payload column
decodes to the empty mapping. -/
theorem C7_output_payload_never_null (d : Json → Json → ℚ) (st : TableState)
    (q : String) (qv : List ℚ) (limit : Nat) (filters : Option Filters)
    (vid : String) (h : WellFormedPayloads st) :
    (∀ o ∈ TiDB.search d st q qv limit filters, o.payload ≠ none) ∧
    (∀ o ∈ (TiDB.list st filters limit).flatten, o.payload ≠ none) ∧
    (∀ o, TiDB.get st vid = some o → o.payload ≠ none) ∧
    decodePayload none = some [] := by
  refine ⟨?_, ?_, ?_, rfl⟩
  · intro o ho
    simp only [TiDB.search, List.mem_map] at ho
    obtain ⟨x, hx, rfl⟩ := ho
    have hx1 := List.mem_of_mem_take hx
    have hx2 := (List.perm_insertionSort TiDB.scoreLE _).subset hx1
    simp only [TiDB.searchScored, List.mem_map] at hx2
    obtain ⟨r, hr, rfl⟩ := hx2
    obtain ⟨pl, hpl⟩ :=
      decodePayload_isSome_of_wf (h r (List.mem_filter.mp hr).1)
    simp [TiDB.rowToSearchOutput, hpl]
  · intro o ho
    simp only [TiDB.list, List.flatten_cons, List.flatten_nil, List.append_nil,
      List.mem_map] at ho
    obtain ⟨r, hr, rfl⟩ := ho
    have hr2 := List.mem_filter.mp (List.mem_of_mem_take hr)
    obtain ⟨pl, hpl⟩ := decodePayload_isSome_of_wf (h r hr2.1)
    simp [TiDB.rowToListOutput, hpl]
  · intro o ho
    unfold TiDB.get at ho
    rw [Option.map_eq_some'] at ho
    obtain ⟨r, hfind, rfl⟩ := ho
    obtain ⟨pl, hpl⟩ :=
      decodePayload_isSome_of_wf (h r (List.mem_of_find?_eq_some hfind))
    simp [hpl]

/-- C7 witness: the conclusions at a concrete two-row state, one row with a
NULL payload column, with a concrete distance function. -/
theorem C7_output_payload_never_null_witness :
    WellFormedPayloads stAB ∧
    ((∀ o ∈ TiDB.search (fun _ _ => 0) stAB ("ignored") [1] 5 none,
        o.payload ≠ none) ∧
     (∀ o ∈ (TiDB.list stAB none 100).flatten, o.payload ≠ none) ∧
     (∀ o, TiDB.get stAB ("a") = some o → o.payload ≠ none) ∧
     decodePayload none = some []) :=
  ⟨by decide,
    C7_output_payload_never_null (fun _ _ => 0) stAB ("ignored") [1] 5 none
      ("a") (by decide)⟩

/-- C8: update with neither field supplied leaves the state unchanged; when
only one of vector/payload is supplied, only that field of the matching row
is rewritten — the row's other field and all other rows are unchanged (and
row count is preserved). -/
theorem C8_update_frame_conditions (st : TableState) (vid : String)
    (v : List ℚ) (p : Payload) :
    TiDB.update st vid none none = st ∧
    (TiDB.update st vid (some v) none).length = st.length ∧
    (TiDB.update st vid none (some p)).length = st.length ∧
    (∀ i : Nat, ∀ r₀ : Row, st[i]? = some r₀ → r₀.id ≠ vid →
        (TiDB.update st vid (some v) none)[i]? = some r₀ ∧
        (TiDB.update st vid none (some p))[i]? = some r₀) ∧
    (∀ i : Nat, ∀ r₀ : Row, st[i]? = some r₀ → r₀.id = vid →
        (TiDB.update st vid (some v) none)[i]? =
          some { r₀ with vector := encodeVector v } ∧
        (TiDB.update st vid none (some p))[i]? =
          some { r₀ with payload := some (encodePayload p) }) := by
  refine ⟨rfl, ?_, ?_, ?_, ?_⟩
  · simp [TiDB.update]
  · simp [TiDB.update]
  · intro i r₀ hi hne
    constructor <;> simp [TiDB.update, List.getElem?_map, hi, if_neg hne]
  · intro i r₀ hi heq
    constructor <;> simp [TiDB.update, List.getElem?_map, hi, if_pos heq]

/-- C8 witness: at a concrete two-row state, the no-op case, the
vector-only rewrite of the matching first row, and the untouched second
row. -/
theorem C8_update_frame_conditions_witness :
    (stAB[0]? = some rowA) ∧ (stAB[1]? = some rowB) ∧
    (rowA.id = ("a")) ∧ (rowB.id ≠ ("a")) ∧
    TiDB.update stAB ("a") none none = stAB ∧
    (TiDB.update stAB ("a") (some [5]) none)[0]? =
      some { rowA with vector := encodeVector [5] } ∧
    (TiDB.update stAB ("a") none (some []))[1]? = some rowB := by
  refine ⟨rfl, rfl, rfl, by decide, (C8_update_frame_conditions stAB ("a") [5] []).1,
    ((C8_update_frame_conditions stAB ("a") [5] []).2.2.2.2 0 rowA rfl rfl).1,
    ((C8_update_frame_conditions stAB ("a") [5] []).2.2.2.1 1 rowB rfl (by decide)).2⟩

end Mem0

namespace Mem0

/-- C1: for every distance function, state, query vector, limit and
(possibly absent) filter mapping, search returns at most limit records,
ordered ascending by the computed distance (closest first), and each
returned record's score equals the distance computed between that record's
stored vector column and the JSON-encoded query vector. -/
theorem C1_search_limit_order_score (d : Json → Json → ℚ) (st : TableState)
    (q : String) (qv : List ℚ) (limit : Nat) (filters : Option Filters) :
    (TiDB.search d st q qv limit filters).length ≤ limit ∧
    (TiDB.search d st q qv limit filters).Pairwise
      (fun o₁ o₂ => ∃ x y, o₁.score = some x ∧ o₂.score = some y ∧ x ≤ y) ∧
    ∀ o ∈ TiDB.search d st q qv limit filters, ∃ r ∈ st,
      o.id = some r.id ∧ o.score = some (d r.vector (encodeVector qv)) := by
  refine ⟨?_, ?_, ?_⟩
  · rw [TiDB.search]
    simp only [List.length_map, List.length_take]
    omega
  · have hs : ((TiDB.searchScored d st qv filters).insertionSort
        TiDB.scoreLE).Pairwise TiDB.scoreLE :=
      List.sorted_insertionSort TiDB.scoreLE _
    have ht := List.Pairwise.sublist (List.take_sublist limit _) hs
    rw [TiDB.search, List.pairwise_map]
    exact ht.imp fun h => ⟨_, _, rfl, rfl, h⟩
  · intro o ho
    simp only [TiDB.search, List.mem_map] at ho
    obtain ⟨x, hx, rfl⟩ := ho
    have hx2 := (List.perm_insertionSort TiDB.scoreLE _).subset
      (List.mem_of_mem_take hx)
    simp only [TiDB.searchScored, List.mem_map] at hx2
    obtain ⟨r, hr, rfl⟩ := hx2
    exact ⟨r, (List.mem_filter.mp hr).1, rfl, rfl⟩

/-- C2: search and list with a filter mapping return only records whose
payload contains every filter key with exactly the filter's value (records
lacking a key or holding a different value are excluded, without error),
and — whenever the limit does not truncate — every matching record is
returned by both. -/
theorem C2_filters_exact_match (d : Json → Json → ℚ) (st : TableState)
    (q : String) (qv : List ℚ) (fs : Filters) (limit : Nat) :
    (∀ o ∈ TiDB.search d st q qv limit (some fs), ∃ r ∈ st,
        payloadMatches fs r.payload ∧ o.id = some r.id) ∧
    (∀ o ∈ (TiDB.list st (some fs) limit).flatten, ∃ r ∈ st,
        payloadMatches fs r.payload ∧ o.id = some r.id) ∧
    ((st.filter fun r => matchesFilters (some fs) r.payload).length ≤ limit →
      ∀ r ∈ st, payloadMatches fs r.payload →
        some r.id ∈ (TiDB.search d st q qv limit (some fs)).map OutputData.id ∧
        some r.id ∈ ((TiDB.list st (some fs) limit).flatten).map OutputData.id) := by
  refine ⟨?_, ?_, ?_⟩
  · intro o ho
    simp only [TiDB.search, List.mem_map] at ho
    obtain ⟨x, hx, rfl⟩ := ho
    have hx2 := (List.perm_insertionSort TiDB.scoreLE _).subset
      (List.mem_of_mem_take hx)
    simp only [TiDB.searchScored, List.mem_map] at hx2
    obtain ⟨r, hr, rfl⟩ := hx2
    have h2 := List.mem_filter.mp hr
    exact ⟨r, h2.1, (matchesFilters_iff fs r.payload).mp h2.2, rfl⟩
  · intro o ho
    simp only [TiDB.list, List.flatten_cons, List.flatten_nil, List.append_nil,
      List.mem_map] at ho
    obtain ⟨r, hr, rfl⟩ := ho
    have h2 := List.mem_filter.mp (List.mem_of_mem_take hr)
    exact ⟨r, h2.1, (matchesFilters_iff fs r.payload).mp h2.2, rfl⟩
  · intro hlen r hrst hmatch
    have hfil : r ∈ st.filter fun r => matchesFilters (some fs) r.payload :=
      List.mem_filter.mpr ⟨hrst, (matchesFilters_iff fs r.payload).mpr hmatch⟩
    constructor
    · have hmem : (r, d r.vector (encodeVector qv)) ∈
          TiDB.searchScored d st qv (some fs) := by
        simp only [TiDB.searchScored, List.mem_map]
        exact ⟨r, hfil, rfl⟩
      have hsorted := (List.perm_insertionSort TiDB.scoreLE
        (TiDB.searchScored d st qv (some fs))).mem_iff.mpr hmem
      have hlen2 : ((TiDB.searchScored d st qv (some fs)).insertionSort
          TiDB.scoreLE).length ≤ limit := by
        rw [(List.perm_insertionSort TiDB.scoreLE _).length_eq]
        simpa [TiDB.searchScored] using hlen
      refine List.mem_map.mpr
        ⟨TiDB.rowToSearchOutput (r, d r.vector (encodeVector qv)), ?_, rfl⟩
      rw [TiDB.search]
      refine List.mem_map.mpr ⟨(r, d r.vector (encodeVector qv)), ?_, rfl⟩
      rw [List.take_of_length_le hlen2]
      exact hsorted
    · refine List.mem_map.mpr ⟨TiDB.rowToListOutput r, ?_, rfl⟩
      simp only [TiDB.list, List.flatten_cons, List.flatten_nil, List.append_nil]
      rw [List.take_of_length_le hlen]
      exact List.mem_map.mpr ⟨r, hfil, rfl⟩

/-- C2 witness: on a concrete three-row state (one record carrying k = v,
one lacking k via a NULL payload, one with k = w), the completeness
direction at a limit that does not truncate. -/
theorem C2_filters_exact_match_witness :
    ((stABC.filter fun r =>
        matchesFilters (some [("k", Scalar.str ("v"))]) r.payload).length ≤ 5) ∧
    (∀ r ∈ stABC, payloadMatches [("k", Scalar.str ("v"))] r.payload →
      some r.id ∈ (TiDB.search (fun _ _ => 0) stABC ("x") [1] 5
        (some [("k", Scalar.str ("v"))])).map OutputData.id ∧
      some r.id ∈ ((TiDB.list stABC (some [("k", Scalar.str ("v"))]) 5).flatten).map
        OutputData.id) :=
  ⟨by decide,
    (C2_filters_exact_match (fun _ _ => 0) stABC ("x") [1]
      [("k", Scalar.str ("v"))] 5).2.2 (by decide)⟩

/-- A field fails the truthiness check exactly when it is absent or holds
the empty string. -/
theorem fieldTruthy_false_iff (values : ConfigInput) (f : String) :
    fieldTruthy values f = false ↔
      assocGet values f = none ∨ assocGet values f = some ("") := by
  unfold fieldTruthy
  cases h : assocGet values f <;> simp [h]

/-- check_required_fields reports a missing field exactly when some
required field is absent or empty. -/
theorem missingRequired_ne_nil_iff (values : ConfigInput) :
    missingRequired values ≠ [] ↔
      ∃ f ∈ required_fields,
        assocGet values f = none ∨ assocGet values f = some ("") := by
  constructor
  · intro h
    obtain ⟨f, hf⟩ := List.exists_mem_of_ne_nil _ h
    rw [missingRequired, List.mem_filter] at hf
    have h2 : fieldTruthy values f = false := by simpa using hf.2
    exact ⟨f, hf.1, (fieldTruthy_false_iff values f).mp h2⟩
  · rintro ⟨f, hf, hff⟩ hnil
    have hmem : f ∈ missingRequired values := by
      rw [missingRequired, List.mem_filter]
      exact ⟨hf, by simpa using (fieldTruthy_false_iff values f).mpr hff⟩
    rw [hnil] at hmem
    exact (List.not_mem_nil f) hmem

/-- validate_extra_fields reports an extra field exactly when some input
field is outside the recognized set. -/
theorem extraFields_ne_nil_iff (values : ConfigInput) :
    extraFields values ≠ [] ↔ ∃ kv ∈ values, kv.1 ∉ allowed_fields := by
  constructor
  · intro h
    obtain ⟨k, hk⟩ := List.exists_mem_of_ne_nil _ h
    rw [extraFields, List.mem_filter] at hk
    obtain ⟨hk1, hk2⟩ := hk
    rw [List.mem_map] at hk1
    obtain ⟨kv, hkv, rfl⟩ := hk1
    exact ⟨kv, hkv, by simpa using hk2⟩
  · rintro ⟨kv, hkv, hnot⟩ hnil
    have hmem : kv.1 ∈ extraFields values := by
      rw [extraFields, List.mem_filter]
      exact ⟨List.mem_map.mpr ⟨kv, hkv, rfl⟩, by simpa using hnot⟩
    rw [hnil] at hmem
    exact (List.not_mem_nil kv.1) hmem

/-- C9: configuration validation errors exactly when some required field
among host, user, password, database is missing or empty, or some input
field is outside the recognized set; otherwise the input is accepted.  The
validators are pure functions of the raw input mapping, so the error is
determined — and raised — before any connection is attempted. -/
theorem C9_config_validation_iff (values : ConfigInput) :
    (∃ e, validateTiDBConfig values = Except.error e) ↔
      ((∃ f ∈ required_fields,
          assocGet values f = none ∨ assocGet values f = some ("")) ∨
        ∃ kv ∈ values, kv.1 ∉ allowed_fields) := by
  rw [← missingRequired_ne_nil_iff, ← extraFields_ne_nil_iff]
  unfold validateTiDBConfig
  split_ifs with h1 h2
  · exact iff_of_true ⟨_, rfl⟩ (Or.inl h1)
  · exact iff_of_true ⟨_, rfl⟩ (Or.inr h2)
  · exact iff_of_false (by rintro ⟨e, he⟩; exact he.elim)
      (fun h => h.elim h1 h2)

end Mem0
